import Mathlib

/-!
Shallow embedding of the centroid / partition / attribute-remap /
identifier-index core of the Houdini-Toolbox plugin collection
(`SOP_PrimGroupCentroid`, `SOP_IdAttribCopy`), together with theorems
settling the frozen claims about it.

Coordinates are modelled over `ℚ` (the C++ code uses floating point; the
claims under study are about control flow, selection and exact value
propagation, not rounding).  Point and primitive offsets are modelled as
`Nat`.
-/

namespace HoudiniToolbox

/-- A 3-vector, standing in for `UT_Vector3`. -/
abbrev V3 : Type := ℚ × ℚ × ℚ

/-- Componentwise division of a `V3` by a scalar, standing in for
`UT_Vector3::operator/=`; Lean's `q / 0 = 0` convention stands in for the
unguarded C++ division. -/
def vdiv (v : V3) (q : ℚ) : V3 := (v.1 / q, v.2.1 / q, v.2.2 / q)

/-- A primitive: the list of point offsets it references, in vertex order and
with multiplicity (`GEO_Primitive::getPointRange`), plus its planar area as
returned by the host's `GEO_Primitive::calcArea` (a nonnegative quantity). -/
structure Prim where
  pts : List Nat
  area : ℚ
deriving DecidableEq, Repr

/-- A mesh's point storage: position of each point offset
(`GU_Detail::getPos3`). -/
structure Mesh where
  pos : Nat → V3

/-- `GA_OffsetArray::append(offset, true)`: append `p` unless already
present. -/
def appendUnique (l : List Nat) (p : Nat) : List Nat :=
  if p ∈ l then l else l ++ [p]

/-- The point-collection loop of `SOP_PrimGroupCentroid::baryCenter`:
iterate the primitives of the range and append each referenced point offset,
checking for duplicates. -/
def collectPoints (prims : List Prim) : List Nat :=
  prims.foldl (fun acc pr => pr.pts.foldl appendUnique acc) []

/-- The sum-of-positions loop of `SOP_PrimGroupCentroid::baryCenter`. -/
def sumPositions (m : Mesh) (pts : List Nat) : V3 :=
  pts.foldl (fun acc p => acc + m.pos p) 0

/-- The divisor of the final division in `SOP_PrimGroupCentroid::baryCenter`
(`points.entries()`): the number of distinct referenced points. -/
def baryDivisor (prims : List Prim) : ℚ :=
  (collectPoints prims).length

/-- `SOP_PrimGroupCentroid::baryCenter`: collect the distinct point offsets
referenced by the primitives of the range, sum their positions, and divide by
the number of collected points.  The division is not guarded against an
empty collection. -/
def baryCenter (m : Mesh) (prims : List Prim) : V3 :=
  vdiv (sumPositions m (collectPoints prims)) (baryDivisor prims)

/-- The host's `GEO_Primitive::baryCenter`: the average of the primitive's
own vertex positions, with multiplicity (no deduplication). -/
def primBary (m : Mesh) (pr : Prim) : V3 :=
  vdiv (sumPositions m pr.pts) pr.pts.length

/-- The accumulated weighted position of
`SOP_PrimGroupCentroid::centerOfMass`: `pos += prim->baryCenter() * area`. -/
def comAccum (m : Mesh) (prims : List Prim) : V3 :=
  prims.foldl (fun acc pr => acc + pr.area • primBary m pr) 0

/-- The accumulated total area of `SOP_PrimGroupCentroid::centerOfMass`. -/
def totalArea (prims : List Prim) : ℚ :=
  prims.foldl (fun acc pr => acc + pr.area) 0

/-- `SOP_PrimGroupCentroid::centerOfMass`: accumulate `area * baryCenter`
and the total area over the range; divide by the total area only when it is
nonzero (`if (total_area) pos /= total_area;`). -/
def centerOfMass (m : Mesh) (prims : List Prim) : V3 :=
  if totalArea prims ≠ 0 then vdiv (comAccum m prims) (totalArea prims)
  else comAccum m prims

lemma mem_appendUnique (l : List Nat) (a p : Nat) :
    p ∈ appendUnique l a ↔ p ∈ l ∨ p = a := by
  unfold appendUnique
  by_cases h : a ∈ l
  · simp only [if_pos h]
    constructor
    · exact fun hp => Or.inl hp
    · rintro (hp | rfl)
      · exact hp
      · exact h
  · simp [if_neg h]

lemma nodup_appendUnique (l : List Nat) (a : Nat) (h : l.Nodup) :
    (appendUnique l a).Nodup := by
  unfold appendUnique
  by_cases ha : a ∈ l
  · simpa [ha] using h
  · simp [ha, List.nodup_append, h]

lemma mem_foldl_appendUnique (l acc : List Nat) (p : Nat) :
    p ∈ l.foldl appendUnique acc ↔ p ∈ acc ∨ p ∈ l := by
  induction l generalizing acc with
  | nil => simp
  | cons a t ih =>
    rw [List.foldl_cons, ih]
    rw [mem_appendUnique]
    simp only [List.mem_cons]
    tauto

lemma nodup_foldl_appendUnique (l acc : List Nat) (h : acc.Nodup) :
    (l.foldl appendUnique acc).Nodup := by
  induction l generalizing acc with
  | nil => simpa
  | cons a t ih => exact ih _ (nodup_appendUnique _ _ h)

lemma mem_collect_aux (S : List Prim) (acc : List Nat) (p : Nat) :
    p ∈ S.foldl (fun acc pr => pr.pts.foldl appendUnique acc) acc ↔
      p ∈ acc ∨ ∃ pr ∈ S, p ∈ pr.pts := by
  induction S generalizing acc with
  | nil => simp
  | cons pr t ih =>
    rw [List.foldl_cons, ih, mem_foldl_appendUnique]
    simp only [List.mem_cons]
    aesop

/-- Membership in the deduplicated point collection: exactly the points
referenced by some primitive of the subset. -/
lemma mem_collectPoints (S : List Prim) (p : Nat) :
    p ∈ collectPoints S ↔ ∃ pr ∈ S, p ∈ pr.pts := by
  unfold collectPoints
  rw [mem_collect_aux]
  simp

lemma nodup_collect_aux (S : List Prim) (acc : List Nat) (h : acc.Nodup) :
    (S.foldl (fun acc pr => pr.pts.foldl appendUnique acc) acc).Nodup := by
  induction S generalizing acc with
  | nil => simpa
  | cons pr t ih => exact ih _ (nodup_foldl_appendUnique _ _ h)

/-- The deduplicated point collection has no duplicates. -/
lemma nodup_collectPoints (S : List Prim) : (collectPoints S).Nodup :=
  nodup_collect_aux S [] (by simp)

lemma sumPositions_eq (m : Mesh) (pts : List Nat) :
    sumPositions m pts = (pts.map m.pos).sum := by
  unfold sumPositions
  have h : ∀ (init : V3), pts.foldl (fun acc p => acc + m.pos p) init
      = init + (pts.map m.pos).sum := by
    induction pts with
    | nil => intro init; simp
    | cons a t ih => intro init; simp [ih, add_assoc]
  simpa using h 0

lemma totalArea_eq (S : List Prim) :
    totalArea S = (S.map Prim.area).sum := by
  unfold totalArea
  have h : ∀ (init : ℚ), S.foldl (fun acc pr => acc + pr.area) init
      = init + (S.map Prim.area).sum := by
    induction S with
    | nil => intro init; simp
    | cons a t ih => intro init; simp [ih, add_assoc]
  simpa using h 0

lemma comAccum_eq (m : Mesh) (S : List Prim) :
    comAccum m S = (S.map (fun pr => pr.area • primBary m pr)).sum := by
  unfold comAccum
  have h : ∀ (init : V3),
      S.foldl (fun acc pr => acc + pr.area • primBary m pr) init
      = init + (S.map (fun pr => pr.area • primBary m pr)).sum := by
    induction S with
    | nil => intro init; simp
    | cons a t ih => intro init; simp [ih, add_assoc]
  simpa using h 0

lemma collectPoints_perm {S S' : List Prim} (h : S.Perm S') :
    (collectPoints S).Perm (collectPoints S') := by
  refine (List.perm_ext_iff_of_nodup (nodup_collectPoints S)
    (nodup_collectPoints S')).mpr ?_
  intro p
  rw [mem_collectPoints, mem_collectPoints]
  constructor
  · rintro ⟨pr, hpr, hp⟩
    exact ⟨pr, h.subset hpr, hp⟩
  · rintro ⟨pr, hpr, hp⟩
    exact ⟨pr, h.symm.subset hpr, hp⟩

/-- C4: the BARYCENTER centroid is invariant to the ordering of primitives
within the subset, and its deduplicated point collection counts each distinct
referenced point exactly once (no duplicates; membership is exactly
"referenced by some primitive of the subset"). -/
theorem claim_C4_barycenter_perm_invariant_dedup (m : Mesh) (S S' : List Prim)
    (h : S.Perm S') :
    baryCenter m S = baryCenter m S' ∧
    (collectPoints S).Nodup ∧
    (∀ p, p ∈ collectPoints S ↔ ∃ pr ∈ S, p ∈ pr.pts) := by
  refine ⟨?_, nodup_collectPoints S, fun p => mem_collectPoints S p⟩
  have hperm := collectPoints_perm h
  unfold baryCenter baryDivisor
  rw [sumPositions_eq, sumPositions_eq, (hperm.map m.pos).sum_eq,
    hperm.length_eq]

/-- C4 witness: on a concrete mesh, two triangles sharing an edge give the
same barycenter in either primitive order, and the shared points are each
counted once. -/
theorem claim_C4_witness :
    baryCenter ⟨fun n => ((n : ℚ), 0, 0)⟩ [⟨[0, 1, 2], 1⟩, ⟨[1, 2, 3], 1⟩]
      = baryCenter ⟨fun n => ((n : ℚ), 0, 0)⟩ [⟨[1, 2, 3], 1⟩, ⟨[0, 1, 2], 1⟩] :=
  (claim_C4_barycenter_perm_invariant_dedup ⟨fun n => ((n : ℚ), 0, 0)⟩
    [⟨[0, 1, 2], 1⟩, ⟨[1, 2, 3], 1⟩] [⟨[1, 2, 3], 1⟩, ⟨[0, 1, 2], 1⟩]
    (by decide)).1

/-- C5: the BARYCENTER computation ends in a division by the number of
distinct referenced points with no zero guard (the same division expression
is taken whatever that count is); the divisor is nonzero exactly when some
primitive of the subset references at least one point, and is zero exactly
when no primitive references any point. -/
theorem claim_C5_barycenter_unguarded_divisor (m : Mesh) (S : List Prim) :
    baryCenter m S = vdiv (sumPositions m (collectPoints S)) (baryDivisor S) ∧
    ((∃ pr ∈ S, pr.pts ≠ []) → baryDivisor S ≠ 0) ∧
    (baryDivisor S = 0 ↔ ∀ pr ∈ S, pr.pts = []) := by
  have h3 : baryDivisor S = 0 ↔ ∀ pr ∈ S, pr.pts = [] := by
    unfold baryDivisor
    rw [Nat.cast_eq_zero, List.length_eq_zero]
    constructor
    · intro h pr hpr
      by_contra hne
      obtain ⟨p, hp⟩ := List.exists_mem_of_ne_nil _ hne
      have hmem : p ∈ collectPoints S := (mem_collectPoints S p).mpr ⟨pr, hpr, hp⟩
      rw [h] at hmem
      exact absurd hmem (List.not_mem_nil p)
    · intro h
      rw [List.eq_nil_iff_forall_not_mem]
      intro p hp
      obtain ⟨pr, hpr, hmem⟩ := (mem_collectPoints S p).mp hp
      rw [h pr hpr] at hmem
      exact absurd hmem (List.not_mem_nil p)
  refine ⟨rfl, ?_, h3⟩
  rintro ⟨pr, hpr, hne⟩ h0
  exact hne (h3.mp h0 pr hpr)

/-- C5 witness: a concrete one-triangle subset has a nonzero divisor. -/
theorem claim_C5_witness :
    baryDivisor [(⟨[0, 1, 2], 1⟩ : Prim)] ≠ 0 :=
  (claim_C5_barycenter_unguarded_divisor ⟨fun n => ((n : ℚ), 0, 0)⟩
    [⟨[0, 1, 2], 1⟩]).2.1 ⟨⟨[0, 1, 2], 1⟩, by decide, by decide⟩

lemma areas_zero_of_totalArea_zero (S : List Prim)
    (hnn : ∀ pr ∈ S, 0 ≤ pr.area) (h0 : totalArea S = 0) :
    ∀ pr ∈ S, pr.area = 0 := by
  rw [totalArea_eq] at h0
  induction S with
  | nil => intro pr hpr; exact absurd hpr (List.not_mem_nil pr)
  | cons a t ih =>
    rw [List.map_cons, List.sum_cons] at h0
    have hta : 0 ≤ (t.map Prim.area).sum :=
      List.sum_nonneg (by
        intro x hx
        obtain ⟨pr, hpr, rfl⟩ := List.mem_map.mp hx
        exact hnn pr (List.mem_cons_of_mem a hpr))
    have ha : 0 ≤ a.area := hnn a (List.mem_cons_self a t)
    have ha0 : a.area = 0 := by linarith
    have ht0 : (t.map Prim.area).sum = 0 := by linarith
    intro pr hpr
    rcases List.mem_cons.mp hpr with rfl | hpr
    · exact ha0
    · exact ih (fun q hq => hnn q (List.mem_cons_of_mem a hq)) ht0 pr hpr

/-- C6: CENTER_OF_MASS equals the area-weighted sum of per-primitive
barycenters (each primitive contributing its own, non-deduplicated,
barycenter) divided by the total area, when the total area is nonzero; when
the total area is zero (with the host's areas nonnegative) the result is the
zero-initialized accumulator (0,0,0), and no error path exists. -/
theorem claim_C6_center_of_mass (m : Mesh) (S : List Prim) :
    (totalArea S ≠ 0 → centerOfMass m S =
      vdiv ((S.map fun pr => pr.area • primBary m pr).sum)
        ((S.map Prim.area).sum)) ∧
    (totalArea S = 0 → (∀ pr ∈ S, 0 ≤ pr.area) → centerOfMass m S = 0) := by
  constructor
  · intro hne
    unfold centerOfMass
    rw [if_pos hne, comAccum_eq, totalArea_eq]
  · intro h0 hnn
    unfold centerOfMass
    rw [if_neg (by simp [h0]), comAccum_eq]
    refine List.sum_eq_zero ?_
    intro x hx
    obtain ⟨pr, hpr, rfl⟩ := List.mem_map.mp hx
    rw [areas_zero_of_totalArea_zero S hnn h0 pr hpr, zero_smul]

/-- C6 witness: a concrete two-triangle subset with nonzero total area
divides by the total area; a zero-area subset yields the origin. -/
theorem claim_C6_witness :
    centerOfMass ⟨fun n => ((n : ℚ), 0, 0)⟩ [⟨[0, 1, 2], 2⟩]
      = vdiv (([⟨[0, 1, 2], 2⟩] : List Prim).map
          (fun pr => pr.area • primBary ⟨fun n => ((n : ℚ), 0, 0)⟩ pr)).sum
        (([⟨[0, 1, 2], 2⟩] : List Prim).map Prim.area).sum ∧
    centerOfMass ⟨fun n => ((n : ℚ), 0, 0)⟩ [⟨[0, 1, 2], 0⟩] = 0 :=
  ⟨(claim_C6_center_of_mass _ _).1 (by norm_num [totalArea]),
   (claim_C6_center_of_mass _ _).2 (by norm_num [totalArea])
     (by intro pr hpr; rw [List.mem_singleton.mp hpr])⟩

/-- A wildcard token match (`UT_String::matchPattern` against one token):
`*` matches any run of characters, `?` any single character, other
characters literally. -/
def globMatch : List Char → List Char → Bool
  | [], s => s.isEmpty
  | '?' :: _, [] => false
  | '?' :: ps, _ :: cs => globMatch ps cs
  | '*' :: ps, s => (List.range (s.length + 1)).any (fun i => globMatch ps (s.drop i))
  | _ :: _, [] => false
  | p :: ps, c :: cs => (p == c) && globMatch ps cs

/-- `UT_String::tokenize(tokens, " ")`: split on spaces, dropping empty
tokens. -/
def tokenize (s : String) : List (List Char) :=
  (s.toList.splitOn ' ').filter (fun t => !t.isEmpty)

/-- An attribute name matches iff it matches at least one token of the
pattern. -/
def matchesAny (tokens : List (List Char)) (name : String) : Bool :=
  tokens.any (fun t => globMatch t name.toList)

/-- Attribute element storage classes relevant to the remap engine. -/
inductive AType
  | afloat
  | aint
  | astring
deriving DecidableEq, Repr

/-- An attribute of a geometry dictionary: its name, element type and tuple
width. -/
structure Attr where
  name : String
  etype : AType
  width : Nat
deriving DecidableEq, Repr

/-- Attribute owner classes of the remap build
(`GA_ATTRIB_PRIMITIVE` / `GA_ATTRIB_POINT`). -/
inductive Owner
  | point
  | primitive
deriving DecidableEq, Repr

/-- The filter of `SOP_PrimGroupCentroid::buildRefMap`: the attribute's name
must match a token of the pattern; `name` is skipped in mode 1, `class` in
mode 2, and `P` is skipped when iterating point attributes. -/
def includedAttr (tokens : List (List Char)) (mode : Nat) (owner : Owner)
    (a : Attr) : Bool :=
  matchesAny tokens a.name &&
  !(mode == 1 && a.name == "name") &&
  !(mode == 2 && a.name == "class") &&
  !(owner == Owner.point && a.name == "P")

/-- The iteration of `SOP_PrimGroupCentroid::buildRefMap` over the source
dictionary: for each included attribute, look it up by name on the
destination dictionary; only when absent, create a same-named clone
(`addPointAttrib(source_attr)` / `addPrimAttrib(source_attr)`, same element
type and width) and append the (destination, source) pair to the map. -/
def buildRefMapGo (tokens : List (List Char)) (mode : Nat) (owner : Owner) :
    List Attr → List Attr → List (Attr × Attr) → List Attr × List (Attr × Attr)
  | [], dst, hm => (dst, hm)
  | a :: rest, dst, hm =>
    if includedAttr tokens mode owner a then
      match dst.find? (fun d => d.name == a.name) with
      | some _ => buildRefMapGo tokens mode owner rest dst hm
      | none => buildRefMapGo tokens mode owner rest (dst ++ [a]) (hm ++ [(a, a)])
    else buildRefMapGo tokens mode owner rest dst hm

/-- `SOP_PrimGroupCentroid::buildRefMap` (also the in-line equivalent in
`SOP_IdAttribCopy::cookMySop`): returns the destination dictionary after the
build (with any created attributes appended) and the reference-map entries. -/
def buildRefMap (tokens : List (List Char)) (mode : Nat) (owner : Owner)
    (srcAttrs dstAttrs : List Attr) : List Attr × List (Attr × Attr) :=
  buildRefMapGo tokens mode owner srcAttrs dstAttrs []

lemma find?_name_eq_none (dst : List Attr) (a : Attr) :
    dst.find? (fun d => d.name == a.name) = none ↔ a.name ∉ dst.map Attr.name := by
  rw [List.find?_eq_none]
  constructor
  · intro h hmem
    obtain ⟨d, hd, hdn⟩ := List.mem_map.mp hmem
    exact absurd (by simp [hdn]) (h d hd)
  · intro h d hd hdn
    exact h (List.mem_map.mpr ⟨d, hd, by simpa using hdn⟩)

lemma buildRefMapGo_snd_mem (tokens : List (List Char)) (mode : Nat)
    (owner : Owner) :
    ∀ (src dst : List Attr) (hm : List (Attr × Attr)),
      (src.map Attr.name).Nodup →
      ∀ e, e ∈ (buildRefMapGo tokens mode owner src dst hm).2 ↔
        e ∈ hm ∨ ∃ a ∈ src, e = (a, a) ∧
          includedAttr tokens mode owner a = true ∧
          a.name ∉ dst.map Attr.name := by
  intro src
  induction src with
  | nil =>
    intro dst hm _ e
    simp [buildRefMapGo]
  | cons a rest ih =>
    intro dst hm hnd e
    rw [List.map_cons, List.nodup_cons] at hnd
    obtain ⟨hnamem, hndr⟩ := hnd
    by_cases hinc : includedAttr tokens mode owner a = true
    · rcases hfind : dst.find? (fun d => d.name == a.name) with _ | d
      · have habs : a.name ∉ dst.map Attr.name := (find?_name_eq_none dst a).mp hfind
        rw [buildRefMapGo, if_pos hinc, hfind, ih _ _ hndr]
        constructor
        · rintro (hmem | ⟨b, hb, rfl, hbinc, hbabs⟩)
          · rcases List.mem_append.mp hmem with hmem | hmem
            · exact Or.inl hmem
            · refine Or.inr ⟨a, List.mem_cons_self a rest, ?_, hinc, habs⟩
              simpa using hmem
          · refine Or.inr ⟨b, List.mem_cons_of_mem a hb, rfl, hbinc, ?_⟩
            intro hcon
            exact hbabs (by
              rw [List.map_append] at *
              exact List.mem_append.mpr (Or.inl hcon))
        · rintro (hmem | ⟨b, hb, rfl, hbinc, hbabs⟩)
          · exact Or.inl (List.mem_append.mpr (Or.inl hmem))
          · rcases List.mem_cons.mp hb with rfl | hb
            · exact Or.inl (List.mem_append.mpr (Or.inr (by simp)))
            · refine Or.inr ⟨b, hb, rfl, hbinc, ?_⟩
              rw [List.map_append]
              intro hcon
              rcases List.mem_append.mp hcon with hcon | hcon
              · exact hbabs hcon
              · have : b.name = a.name := by simpa using hcon
                exact hnamem (this ▸ List.mem_map.mpr ⟨b, hb, rfl⟩)
      · have hpresent : a.name ∈ dst.map Attr.name := by
          by_contra habs
          rw [← find?_name_eq_none dst a] at habs
          rw [habs] at hfind
          exact Option.noConfusion hfind
        rw [buildRefMapGo, if_pos hinc, hfind, ih _ _ hndr]
        constructor
        · rintro (hmem | ⟨b, hb, rfl, hbinc, hbabs⟩)
          · exact Or.inl hmem
          · exact Or.inr ⟨b, List.mem_cons_of_mem a hb, rfl, hbinc, hbabs⟩
        · rintro (hmem | ⟨b, hb, rfl, hbinc, hbabs⟩)
          · exact Or.inl hmem
          · rcases List.mem_cons.mp hb with rfl | hb
            · exact absurd hpresent hbabs
            · exact Or.inr ⟨b, hb, rfl, hbinc, hbabs⟩
    · rw [buildRefMapGo, if_neg hinc, ih _ _ hndr]
      constructor
      · rintro (hmem | ⟨b, hb, rfl, hbinc, hbabs⟩)
        · exact Or.inl hmem
        · exact Or.inr ⟨b, List.mem_cons_of_mem a hb, rfl, hbinc, hbabs⟩
      · rintro (hmem | ⟨b, hb, rfl, hbinc, hbabs⟩)
        · exact Or.inl hmem
        · rcases List.mem_cons.mp hb with rfl | hb
          · exact absurd hbinc hinc
          · exact Or.inr ⟨b, hb, rfl, hbinc, hbabs⟩

lemma buildRefMapGo_dst_mono (tokens : List (List Char)) (mode : Nat)
    (owner : Owner) :
    ∀ (src dst : List Attr) (hm : List (Attr × Attr)) (d : Attr),
      d ∈ dst → d ∈ (buildRefMapGo tokens mode owner src dst hm).1 := by
  intro src
  induction src with
  | nil => intro dst hm d hd; simpa [buildRefMapGo] using hd
  | cons a rest ih =>
    intro dst hm d hd
    rw [buildRefMapGo]
    by_cases hinc : includedAttr tokens mode owner a = true
    · rcases hfind : dst.find? (fun b => b.name == a.name) with _ | b
      · rw [if_pos hinc, hfind]
        exact ih _ _ _ (List.mem_append.mpr (Or.inl hd))
      · rw [if_pos hinc, hfind]
        exact ih _ _ _ hd
    · rw [if_neg hinc]
      exact ih _ _ _ hd

lemma buildRefMapGo_fst_of_mem (tokens : List (List Char)) (mode : Nat)
    (owner : Owner) :
    ∀ (src dst : List Attr) (hm : List (Attr × Attr)) (e : Attr × Attr),
      e ∈ (buildRefMapGo tokens mode owner src dst hm).2 →
      e ∈ hm ∨ e.1 ∈ (buildRefMapGo tokens mode owner src dst hm).1 := by
  intro src
  induction src with
  | nil => intro dst hm e he; exact Or.inl (by simpa [buildRefMapGo] using he)
  | cons a rest ih =>
    intro dst hm e he
    rw [buildRefMapGo] at he ⊢
    by_cases hinc : includedAttr tokens mode owner a = true
    · rcases hfind : dst.find? (fun b => b.name == a.name) with _ | b
      · rw [if_pos hinc, hfind] at he ⊢
        rcases ih _ _ _ he with hmem | hmem
        · rcases List.mem_append.mp hmem with hmem | hmem
          · exact Or.inl hmem
          · have : e = (a, a) := by simpa using hmem
            refine Or.inr ?_
            rw [this]
            exact buildRefMapGo_dst_mono tokens mode owner rest _ _ a
              (List.mem_append.mpr (Or.inr (by simp)))
        · exact Or.inr hmem
      · rw [if_pos hinc, hfind] at he ⊢
        exact ih _ _ _ he
    · rw [if_neg hinc] at he ⊢
      exact ih _ _ _ he

/-- C1 counterexample: a source attribute `Cd` matching the pattern and
already present on the destination gets no reference-map entry, contrary to
the claim that it "still gets an entry". -/
theorem claim_C1_counterexample :
    ¬ ∃ e ∈ (buildRefMap (tokenize "Cd") 0 Owner.primitive
        [⟨"Cd", AType.afloat, 3⟩] [⟨"Cd", AType.afloat, 3⟩]).2,
      e.2 = (⟨"Cd", AType.afloat, 3⟩ : Attr) := by decide

/-- C1 (amended): the reference map contains a (destination, source) entry
exactly for the matching, non-excluded source attributes that are absent (by
name) from the destination dictionary; each such entry pairs the source with
a created destination attribute of identical name, element type and tuple
width, and that created attribute is in the resulting destination
dictionary.  A matching attribute already present on the destination gets no
entry. -/
theorem claim_C1_refmap_entries (tokens : List (List Char)) (mode : Nat)
    (owner : Owner) (src dst : List Attr)
    (hnd : (src.map Attr.name).Nodup) :
    (∀ e, e ∈ (buildRefMap tokens mode owner src dst).2 ↔
       ∃ a ∈ src, e = (a, a) ∧ includedAttr tokens mode owner a = true ∧
         a.name ∉ dst.map Attr.name) ∧
    (∀ e ∈ (buildRefMap tokens mode owner src dst).2,
       e.1 ∈ (buildRefMap tokens mode owner src dst).1) := by
  constructor
  · intro e
    simpa [buildRefMap] using
      buildRefMapGo_snd_mem tokens mode owner src dst [] hnd e
  · intro e he
    rcases buildRefMapGo_fst_of_mem tokens mode owner src dst [] e he with h | h
    · exact absurd h (List.not_mem_nil e)
    · exact h

/-- C1 witness: on a concrete source dictionary, the matching attribute
absent from the destination yields an entry pairing it with its clone. -/
theorem claim_C1_witness :
    ((⟨"Cd", AType.afloat, 3⟩ : Attr), (⟨"Cd", AType.afloat, 3⟩ : Attr)) ∈
      (buildRefMap (tokenize "Cd") 0 Owner.primitive
        [⟨"Cd", AType.afloat, 3⟩] []).2 :=
  ((claim_C1_refmap_entries (tokenize "Cd") 0 Owner.primitive
      [⟨"Cd", AType.afloat, 3⟩] [] (by decide)).1 _).mpr
    ⟨⟨"Cd", AType.afloat, 3⟩, by decide, rfl, by decide, by decide⟩

/-- A node error, as recorded by `addError(code, msg)`. -/
structure SopError where
  code : String
  msg : String
deriving DecidableEq, Repr

/-- The observable output-geometry state of a CREATE-mode cook: the point
attribute dictionary of `gdp`, the number of appended points, and the
recorded node errors.  A cook starts from the cleared state
(`gdp->clearAndDestroy()`). -/
structure OutGeo where
  pointAttrs : List Attr
  numPoints : Nat
  errors : List SopError
deriving DecidableEq, Repr

/-- The cleared output geometry (`clearAndDestroy`). -/
def clearedGeo : OutGeo := ⟨[], 0, []⟩

/-- The first-input geometry data consumed by `buildCentroids`: its
primitive attribute dictionary, its primitive groups in ordered-iteration
order (with the internal flag), and the host-reported number of unique
values of the partition attribute (`getUniqueValueCount`). -/
structure InGeo where
  primAttrs : List Attr
  groups : List (String × Bool)
  uniqueCount : Nat
deriving Repr

/-- Name lookup in the input's primitive dictionary
(`findPrimitiveAttribute`). -/
def findPrimAttr (g : InGeo) (nm : String) : Option Attr :=
  g.primAttrs.find? (fun a => a.name == nm)

/-- `SOP_PrimGroupCentroid::buildAttribData`: find the partition-key
primitive attribute (`name` for mode 1, `class` for mode 2), failing with an
attribute-invalid error when it is missing or has the wrong element type;
on success report the number of unique-value ranges. -/
def buildAttribData (mode : Nat) (g : InGeo) : Except SopError Nat :=
  match findPrimAttr g (if mode = 1 then "name" else "class") with
  | none => .error ⟨"SOP_ATTRIBUTE_INVALID", if mode = 1 then "name" else "class"⟩
  | some a =>
    if mode = 1 ∧ a.etype ≠ AType.astring then
      .error ⟨"SOP_ATTRIBUTE_INVALID", "'name' must be a string."⟩
    else if mode = 2 ∧ a.etype ≠ AType.aint then
      .error ⟨"SOP_ATTRIBUTE_INVALID", "'class' must be an integer."⟩
    else .ok g.uniqueCount

/-- The partition-key attribute is missing, or present with the wrong
element type, for the given mode. -/
def partitionKeyInvalid (mode : Nat) (g : InGeo) : Prop :=
  match findPrimAttr g (if mode = 1 then "name" else "class") with
  | none => True
  | some a => (mode = 1 ∧ a.etype ≠ AType.astring) ∨
              (mode = 2 ∧ a.etype ≠ AType.aint)

/-- The store-identifier attribute created at the top of `buildCentroids`
when the `store` toggle is on: an integer `class` tuple for mode 2, a string
`group`/`name` tuple otherwise. -/
def storeIdentAttrs (mode : Nat) (store : Bool) : List Attr :=
  if store then
    if mode = 2 then [⟨"class", AType.aint, 1⟩]
    else [⟨(if mode = 0 then "group" else "name"), AType.astring, 1⟩]
  else []

/-- The point-attribute dictionary of `gdp` after the two creation stages
that `buildCentroids` runs before any partition check: the store-identifier
attribute, then the reference-map build (which creates destination
attributes) when the copy pattern is non-empty. -/
def preCheckAttrs (mode : Nat) (store : Bool) (ap : String) (g : InGeo) :
    List Attr :=
  if ap.length > 0 then
    (buildRefMap (tokenize ap) mode Owner.primitive g.primAttrs
      (storeIdentAttrs mode store)).1
  else storeIdentAttrs mode store

/-- The groups enumerated by `buildGroupData`: ordered primitive groups,
skipping internal ones, kept when the name matches the pattern. -/
def matchingGroups (tokens : List (List Char)) (g : InGeo) : List String :=
  (g.groups.filter (fun gr => !gr.2 && matchesAny tokens gr.1)).map Prod.fst

/-- `SOP_PrimGroupCentroid::buildCentroids` (CREATE mode): create the
store-identifier attribute and the reference-map destination attributes,
then partition.  Mode 0 with an empty group pattern returns before creating
any point and without recording an error; modes 1/2 run the
`buildAttribData` checks, recording an attribute-invalid error and aborting
(no point appended) on failure; otherwise one point is appended per
partition range. -/
def buildCentroids (mode : Nat) (store : Bool) (ap gp : String) (g : InGeo) :
    OutGeo :=
  if mode = 0 then
    if gp.length = 0 then ⟨preCheckAttrs mode store ap g, 0, []⟩
    else ⟨preCheckAttrs mode store ap g,
      (matchingGroups (tokenize gp) g).length, []⟩
  else
    match buildAttribData mode g with
    | .error e => ⟨preCheckAttrs mode store ap g, 0, [e]⟩
    | .ok n => ⟨preCheckAttrs mode store ap g, n, []⟩

/-- C2 counterexample: in CREATE mode 1 (`name`) with the store toggle on
and no `name` primitive attribute on the input, the cook records the
attribute-invalid error, yet the output's attribute dictionary was already
mutated before the check (the store-identifier attribute exists), refuting
"no attributes created before the check". -/
theorem claim_C2_counterexample :
    (buildCentroids 1 true "" "" ⟨[], [], 0⟩).errors =
      [⟨"SOP_ATTRIBUTE_INVALID", "name"⟩] ∧
    (buildCentroids 1 true "" "" ⟨[], [], 0⟩).pointAttrs ≠
      clearedGeo.pointAttrs := by decide

/-- C2 (amended): in CREATE mode `name`/`class`, a missing or wrong-typed
partition-key attribute is reported as a single attribute-invalid error and
the cook aborts with no point appended; however the store-identifier
attribute and the reference-map destination attributes have already been
created before the check, so the output dictionary equals exactly those
pre-check creations rather than the cleared state. -/
theorem claim_C2_error_aborts (mode : Nat) (store : Bool) (ap gp : String)
    (g : InGeo) (hm : mode = 1 ∨ mode = 2)
    (hbad : partitionKeyInvalid mode g) :
    (buildCentroids mode store ap gp g).numPoints = 0 ∧
    (buildCentroids mode store ap gp g).errors.length = 1 ∧
    (∀ e ∈ (buildCentroids mode store ap gp g).errors,
      e.code = "SOP_ATTRIBUTE_INVALID") ∧
    (buildCentroids mode store ap gp g).pointAttrs =
      preCheckAttrs mode store ap g := by
  have hne : mode ≠ 0 := by
    rcases hm with rfl | rfl <;> decide
  have herr : ∃ e, buildAttribData mode g = .error e ∧
      e.code = "SOP_ATTRIBUTE_INVALID" := by
    unfold partitionKeyInvalid at hbad
    unfold buildAttribData
    cases hfind : findPrimAttr g (if mode = 1 then "name" else "class") with
    | none => exact ⟨_, rfl, rfl⟩
    | some a =>
      rw [hfind] at hbad
      rcases hbad with ⟨rfl, hty⟩ | ⟨rfl, hty⟩
      · exact ⟨⟨"SOP_ATTRIBUTE_INVALID", "'name' must be a string."⟩,
          by simp [hty], rfl⟩
      · exact ⟨⟨"SOP_ATTRIBUTE_INVALID", "'class' must be an integer."⟩,
          by simp [hty], rfl⟩
  obtain ⟨e, he, hcode⟩ := herr
  have hbc : buildCentroids mode store ap gp g =
      ⟨preCheckAttrs mode store ap g, 0, [e]⟩ := by
    unfold buildCentroids
    rw [if_neg hne, he]
  rw [hbc]
  exact ⟨rfl, rfl, fun x hx => by
    rw [List.mem_singleton.mp hx]; exact hcode, rfl⟩

/-- C2 witness: the amended abort behaviour at a concrete bad input. -/
theorem claim_C2_witness :
    (buildCentroids 2 false "" "" ⟨[⟨"class", AType.astring, 1⟩], [], 3⟩).numPoints = 0 ∧
    (buildCentroids 2 false "" "" ⟨[⟨"class", AType.astring, 1⟩], [], 3⟩).errors.length = 1 :=
  ⟨(claim_C2_error_aborts 2 false "" "" ⟨[⟨"class", AType.astring, 1⟩], [], 3⟩
      (Or.inr rfl) (by unfold partitionKeyInvalid findPrimAttr; simp)).1,
   (claim_C2_error_aborts 2 false "" "" ⟨[⟨"class", AType.astring, 1⟩], [], 3⟩
      (Or.inr rfl) (by unfold partitionKeyInvalid findPrimAttr; simp)).2.1⟩

/-- C9: in GROUP partitioning mode, an empty group-pattern string yields a
cook with zero output points and no recorded error. -/
theorem claim_C9_empty_group_pattern (store : Bool) (ap : String) (g : InGeo) :
    (buildCentroids 0 store ap "" g).numPoints = 0 ∧
    (buildCentroids 0 store ap "" g).errors = [] := by
  unfold buildCentroids
  simp

/-- C9 needs no hypothesis discharged, but we record a concrete run. -/
theorem claim_C9_witness :
    (buildCentroids 0 true "*" "" ⟨[⟨"Cd", AType.afloat, 3⟩], [("box", false)], 0⟩).numPoints = 0 ∧
    (buildCentroids 0 true "*" "" ⟨[⟨"Cd", AType.afloat, 3⟩], [("box", false)], 0⟩).errors = [] :=
  claim_C9_empty_group_pattern true "*"
    ⟨[⟨"Cd", AType.afloat, 3⟩], [("box", false)], 0⟩

/-- The index-building scan of `SOP_IdAttribCopy::cookMySop`: walk the
source points in storage order, keeping an offset counter, and write
`id_map[id] = pt` for each — later writes override earlier ones. -/
def buildIndexGo : Nat → List Int → (Int → Option Nat) → (Int → Option Nat)
  | _, [], m => m
  | n, id :: rest, m =>
    buildIndexGo (n + 1) rest (fun q => if q = id then some n else m q)

/-- The identifier index (`IdOffsetMap`): identifier value to source point
storage offset, built by a single linear scan. -/
def buildIndex (ids : List Int) : Int → Option Nat :=
  buildIndexGo 0 ids (fun _ => none)

lemma buildIndexGo_none (ids : List Int) :
    ∀ (n : Nat) (m : Int → Option Nat) (q : Int),
      buildIndexGo n ids m q = none → q ∉ ids ∧ m q = none := by
  induction ids with
  | nil => intro n m q h; exact ⟨List.not_mem_nil q, h⟩
  | cons a rest ih =>
    intro n m q h
    obtain ⟨hmem, hm⟩ := ih (n + 1) _ q h
    by_cases hqa : q = a
    · rw [if_pos hqa] at hm
      exact absurd hm (Option.noConfusion)
    · rw [if_neg hqa] at hm
      exact ⟨fun hc => (List.mem_cons.mp hc).elim hqa hmem, hm⟩

lemma buildIndexGo_some (ids : List Int) :
    ∀ (n : Nat) (m : Int → Option Nat) (q : Int) (i : Nat),
      buildIndexGo n ids m q = some i →
      (∃ k, ids.get? k = some q ∧ i = n + k ∧
        ∀ j, k < j → ids.get? j ≠ some q) ∨
      (q ∉ ids ∧ m q = some i) := by
  induction ids with
  | nil => intro n m q i h; exact Or.inr ⟨List.not_mem_nil q, h⟩
  | cons a rest ih =>
    intro n m q i h
    rcases ih (n + 1) _ q i h with ⟨k, hk, hi, hlast⟩ | ⟨hmem, hm⟩
    · refine Or.inl ⟨k + 1, by simpa using hk, by omega, ?_⟩
      intro j hj
      match j, hj with
      | j + 1, hj =>
        rw [List.get?_cons_succ]
        exact hlast j (by omega)
    · by_cases hqa : q = a
      · rw [if_pos hqa] at hm
        have hni : n = i := Option.some.inj hm
        refine Or.inl ⟨0, by simp [hqa], by omega, ?_⟩
        intro j hj
        match j, hj with
        | j + 1, _ =>
          rw [List.get?_cons_succ]
          intro hc
          exact hmem (List.get?_mem hc)
      · rw [if_neg hqa] at hm
        refine Or.inr ⟨?_, hm⟩
        intro hc
        exact (List.mem_cons.mp hc).elim hqa hmem

/-- On a miss the identifier is absent from the source scan. -/
lemma buildIndex_none (ids : List Int) (q : Int)
    (h : buildIndex ids q = none) : q ∉ ids :=
  (buildIndexGo_none ids 0 _ q h).1

/-- On a hit the index points at the last-scanned occurrence of the
identifier (last write wins on duplicates). -/
lemma buildIndex_some (ids : List Int) (q : Int) (i : Nat)
    (h : buildIndex ids q = some i) :
    ids.get? i = some q ∧ ∀ j, i < j → ids.get? j ≠ some q := by
  rcases buildIndexGo_some ids 0 _ q i h with ⟨k, hk, hi, hlast⟩ | ⟨_, hm⟩
  · have : i = k := by omega
    subst this
    exact ⟨hk, hlast⟩
  · exact absurd hm (Option.noConfusion)

/-- A destination point of the first input: its `id` value, its values for
the reference-mapped attributes, and its remaining attribute data. -/
structure DestPoint (α β : Type) where
  id : Int
  mapped : α
  other : β
deriving DecidableEq, Repr

/-- The reference-mapped attribute values of the source point stored at a
given offset (source points are (id, mapped values) pairs in storage
order). -/
def srcMapped {α : Type} [Inhabited α] (src : List (Int × α)) (off : Nat) : α :=
  ((src.get? off).map Prod.snd).getD default

/-- `AttributeIdCopier::operator()` on a single visited destination point:
look the point's `id` up in the index; on a miss leave it untouched with the
match bit clear, on a hit copy the mapped attribute values from the indexed
source offset (`copyValue`) and set the match bit. -/
def copyOne {α β : Type} [Inhabited α] (src : List (Int × α))
    (index : Int → Option Nat) (d : DestPoint α β) : DestPoint α β × Bool :=
  match index d.id with
  | none => (d, false)
  | some off => ({ d with mapped := srcMapped src off }, true)

/-- The visited/not-visited test of the parallel range
(`gdp->getPointRange(myGroup)`): with no group every point is in range. -/
def inGroup (grp : Option (Nat → Bool)) (i : Nat) : Bool :=
  match grp with
  | none => true
  | some g => g i

def copyByIdGo {α β : Type} [Inhabited α] (src : List (Int × α))
    (index : Int → Option Nat) (grp : Option (Nat → Bool)) :
    Nat → List (DestPoint α β) → List (DestPoint α β × Bool)
  | _, [] => []
  | i, d :: rest =>
    (if inGroup grp i then copyOne src index d else (d, false)) ::
      copyByIdGo src index grp (i + 1) rest

/-- The whole copy pass of `SOP_IdAttribCopy::cookMySop`: build the
identifier index from the source ids, then run the copier over the
destination points of the selected range; points outside the selected group
are not visited at all, points inside are processed by `copyOne`.  The
per-point booleans are the match bits of the `UT_BitArray`. -/
def copyById {α β : Type} [Inhabited α] (src : List (Int × α))
    (grp : Option (Nat → Bool)) (dest : List (DestPoint α β)) :
    List (DestPoint α β × Bool) :=
  copyByIdGo src (buildIndex (src.map Prod.fst)) grp 0 dest

lemma copyByIdGo_get? {α β : Type} [Inhabited α] (src : List (Int × α))
    (index : Int → Option Nat) (grp : Option (Nat → Bool)) :
    ∀ (dest : List (DestPoint α β)) (n i : Nat),
      (copyByIdGo src index grp n dest).get? i = (dest.get? i).map
        (fun d => if inGroup grp (n + i) then copyOne src index d
          else (d, false)) := by
  intro dest
  induction dest with
  | nil => intro n i; simp [copyByIdGo]
  | cons d rest ih =>
    intro n i
    match i with
    | 0 => simp [copyByIdGo]
    | i + 1 =>
      rw [copyByIdGo, List.get?_cons_succ, List.get?_cons_succ, ih]
      have : n + 1 + i = n + (i + 1) := by omega
      rw [this]

/-- The post-join conversion of the match bits into the matched point group
(`for (matches.iterateInit(i); ...) if (matches(i)) group->addOffset(...)`):
the list of destination indices whose bit is set. -/
def matchedGroupGo {α β : Type} : Nat → List (DestPoint α β × Bool) → List Nat
  | _, [] => []
  | i, p :: rest =>
    (if p.2 then [i] else []) ++ matchedGroupGo (i + 1) rest

def matchedGroup {α β : Type} (res : List (DestPoint α β × Bool)) : List Nat :=
  matchedGroupGo 0 res

lemma mem_matchedGroupGo {α β : Type} :
    ∀ (res : List (DestPoint α β × Bool)) (n i : Nat),
      i ∈ matchedGroupGo n res →
      ∃ k p, i = n + k ∧ res.get? k = some p ∧ p.2 = true := by
  intro res
  induction res with
  | nil => intro n i h; exact absurd h (List.not_mem_nil i)
  | cons p rest ih =>
    intro n i h
    rw [matchedGroupGo] at h
    rcases List.mem_append.mp h with h | h
    · by_cases hp : p.2 = true
      · rw [if_pos hp] at h
        have : i = n := by simpa using h
        exact ⟨0, p, by omega, rfl, hp⟩
      · rw [if_neg hp] at h
        exact absurd h (List.not_mem_nil i)
    · obtain ⟨k, q, hik, hq, hqt⟩ := ih (n + 1) i h
      exact ⟨k + 1, q, by omega, by simpa using hq, hqt⟩

/-- C3: in the identifier-indexed copy (no group selection), a destination
point whose identifier misses the index is left exactly as it was (and the
copier has no error path); a destination point whose identifier hits the
index has its mapped attributes replaced by an exact copy of the source
point at the indexed storage offset, and that offset is the last-scanned
source occurrence of the identifier (last write wins on duplicates). -/
theorem claim_C3_id_copy_semantics {α β : Type} [Inhabited α]
    (src : List (Int × α)) (dest : List (DestPoint α β)) (i : Nat)
    (d : DestPoint α β) (hd : dest.get? i = some d) :
    (buildIndex (src.map Prod.fst) d.id = none →
      (copyById src none dest).get? i = some (d, false) ∧
      d.id ∉ src.map Prod.fst) ∧
    (∀ off, buildIndex (src.map Prod.fst) d.id = some off →
      (copyById src none dest).get? i =
        some ({ d with mapped := srcMapped src off }, true) ∧
      (src.map Prod.fst).get? off = some d.id ∧
      (∀ j, off < j → (src.map Prod.fst).get? j ≠ some d.id)) := by
  have hget : (copyById src none dest).get? i =
      (dest.get? i).map (fun d => copyOne src (buildIndex (src.map Prod.fst)) d) := by
    unfold copyById
    rw [copyByIdGo_get?]
    simp [inGroup]
  constructor
  · intro hmiss
    refine ⟨?_, buildIndex_none _ _ hmiss⟩
    rw [hget, hd]
    simp only [Option.map_some']
    unfold copyOne
    rw [hmiss]
  · intro off hhit
    obtain ⟨hoff, hlast⟩ := buildIndex_some _ _ _ hhit
    refine ⟨?_, hoff, hlast⟩
    rw [hget, hd]
    simp only [Option.map_some']
    unfold copyOne
    rw [hhit]

/-- C3 witness: identifier 7 absent leaves the point untouched; identifier 5
present twice copies from the later source occurrence. -/
theorem claim_C3_witness :
    (copyById [((5 : Int), (10 : ℚ)), (5, 20)] none
        [(⟨7, 0, 0⟩ : DestPoint ℚ ℚ), ⟨5, 0, 0⟩]).get? 0 =
      some (⟨7, 0, 0⟩, false) ∧
    (copyById [((5 : Int), (10 : ℚ)), (5, 20)] none
        [(⟨7, 0, 0⟩ : DestPoint ℚ ℚ), ⟨5, 0, 0⟩]).get? 1 =
      some (⟨5, 20, 0⟩, true) :=
  ⟨((claim_C3_id_copy_semantics [((5 : Int), (10 : ℚ)), (5, 20)]
      [⟨7, 0, 0⟩, ⟨5, 0, 0⟩] 0 ⟨7, 0, 0⟩ rfl).1 rfl).1,
   ((claim_C3_id_copy_semantics [((5 : Int), (10 : ℚ)), (5, 20)]
      [⟨7, 0, 0⟩, ⟨5, 0, 0⟩] 1 ⟨5, 0, 0⟩ rfl).2 1 rfl).1⟩

/-- C10: with a destination point-group selection, a destination point
outside the selected group is never visited: its attribute values are
unchanged, its match bit stays clear, and it is not added to the matched
group, even when its identifier has a hit in the source index. -/
theorem claim_C10_group_restricts_copy {α β : Type} [Inhabited α]
    (src : List (Int × α)) (dest : List (DestPoint α β)) (g : Nat → Bool)
    (i : Nat) (d : DestPoint α β) (hd : dest.get? i = some d)
    (hout : g i = false) :
    (copyById src (some g) dest).get? i = some (d, false) ∧
    i ∉ matchedGroup (copyById src (some g) dest) := by
  have hget : (copyById src (some g) dest).get? i = some (d, false) := by
    unfold copyById
    rw [copyByIdGo_get?, hd]
    simp [inGroup, hout]
  refine ⟨hget, ?_⟩
  intro hmem
  obtain ⟨k, p, hik, hk, hpt⟩ := mem_matchedGroupGo _ 0 i hmem
  have hki : k = i := by omega
  subst hki
  rw [hget] at hk
  have hp : p = (d, false) := (Option.some.inj hk).symm
  rw [hp] at hpt
  exact Bool.noConfusion hpt

/-- C10 witness: a point outside the group keeps its values and stays out of
the matched group although its identifier 5 is present in the source. -/
theorem claim_C10_witness :
    (copyById [((5 : Int), (10 : ℚ))] (some (fun i => i != 0))
        [(⟨5, 0, 0⟩ : DestPoint ℚ ℚ)]).get? 0 = some (⟨5, 0, 0⟩, false) ∧
    0 ∉ matchedGroup (copyById [((5 : Int), (10 : ℚ))]
        (some (fun i => i != 0)) [(⟨5, 0, 0⟩ : DestPoint ℚ ℚ)]) :=
  claim_C10_group_restricts_copy [((5 : Int), (10 : ℚ))]
    [⟨5, 0, 0⟩] (fun i => i != 0) 0 ⟨5, 0, 0⟩ rfl rfl

/-- A primitive of the first input during a BIND cook: its partition-key
value, the record of bound-point transforms applied to it (by bound-point
iteration index), and its membership in the accumulating `allprims` group. -/
structure BindPrim where
  key : Int
  xf : List Nat
  touched : Bool
deriving DecidableEq, Repr

/-- One iteration of the bind loop for bound point `j` carrying key `k`:
the primitives whose key equals `k` form the matched range
(`getRangeByValue`); they are added to the `allprims` group and transformed
(`gdp->transform(mat, temp_group)`, recorded by appending `j`). -/
def bindStep (prims : List BindPrim) (j : Nat) (k : Int) : List BindPrim :=
  prims.map (fun p => if p.key = k then ⟨p.key, p.xf ++ [j], true⟩ else p)

/-- The effect of the whole bound-point loop on a single primitive. -/
def bindFn : Nat → List Int → BindPrim → BindPrim
  | _, [], p => p
  | j, k :: rest, p =>
    bindFn (j + 1) rest (if p.key = k then ⟨p.key, p.xf ++ [j], true⟩ else p)

/-- The bound-point loop of `SOP_PrimGroupCentroid::bindToCentroids`:
iterate the second input's points in order, applying `bindStep` for each. -/
def bindLoop : List BindPrim → Nat → List Int → List BindPrim
  | prims, _, [] => prims
  | prims, j, k :: rest => bindLoop (bindStep prims j k) (j + 1) rest

/-- `SOP_PrimGroupCentroid::bindToCentroids` tail: after the loop, behaviour
DESTROY (`behavior` nonzero) toggles the membership of the `allprims` group
and deletes it — keeping exactly the touched primitives; KEEP leaves the
geometry as the loop left it. -/
def bindToCentroids (behavior : Bool) (prims : List BindPrim)
    (bpts : List Int) : List BindPrim :=
  if behavior then (bindLoop prims 0 bpts).filter (fun p => p.touched)
  else bindLoop prims 0 bpts

lemma bindLoop_eq_map (bpts : List Int) :
    ∀ (prims : List BindPrim) (j : Nat),
      bindLoop prims j bpts = prims.map (bindFn j bpts) := by
  induction bpts with
  | nil => intro prims j; simp [bindLoop, bindFn]
  | cons k rest ih =>
    intro prims j
    rw [bindLoop, ih, bindStep, List.map_map]
    rfl

lemma bindFn_key (bpts : List Int) :
    ∀ (j : Nat) (p : BindPrim), (bindFn j bpts p).key = p.key := by
  induction bpts with
  | nil => intro j p; rfl
  | cons k rest ih =>
    intro j p
    rw [bindFn]
    by_cases h : p.key = k
    · rw [if_pos h, ih]
    · rw [if_neg h, ih]

lemma bindFn_unmatched (bpts : List Int) :
    ∀ (j : Nat) (p : BindPrim), p.key ∉ bpts → bindFn j bpts p = p := by
  induction bpts with
  | nil => intro j p _; rfl
  | cons k rest ih =>
    intro j p hp
    rw [bindFn,
      if_neg (fun hc => hp (by rw [hc]; exact List.mem_cons_self k rest)),
      ih _ _ (fun hc => hp (List.mem_cons_of_mem k hc))]

lemma bindFn_touched (bpts : List Int) :
    ∀ (j : Nat) (p : BindPrim),
      (bindFn j bpts p).touched = true ↔ p.touched = true ∨ p.key ∈ bpts := by
  induction bpts with
  | nil => intro j p; simp [bindFn]
  | cons k rest ih =>
    intro j p
    rw [bindFn]
    by_cases h : p.key = k
    · rw [if_pos h, ih]
      simp [h]
    · rw [if_neg h, ih]
      simp only [List.mem_cons]
      tauto

/-- C7: in BIND mode with behaviour DESTROY (primitives initially outside
the `allprims` group), the surviving geometry is exactly the loop-processed
image of the primitives whose partition key matched some bound point — the
complement of the touched set is deleted — so the remaining primitive count
equals the total count minus the unmatched count; with behaviour KEEP no
primitive is deleted and every unmatched primitive is left exactly as it
was. -/
theorem claim_C7_bind_destroy_keep (prims : List BindPrim) (bpts : List Int)
    (hinit : ∀ p ∈ prims, p.touched = false) :
    (bindToCentroids true prims bpts =
      (prims.filter (fun p => decide (p.key ∈ bpts))).map (bindFn 0 bpts)) ∧
    (∀ p ∈ bindToCentroids true prims bpts, p.key ∈ bpts) ∧
    ((bindToCentroids true prims bpts).length =
      prims.length - (prims.filter (fun p => decide (p.key ∉ bpts))).length) ∧
    ((bindToCentroids false prims bpts).length = prims.length ∧
      ∀ i p, prims.get? i = some p → p.key ∉ bpts →
        (bindToCentroids false prims bpts).get? i = some p) := by
  have hmain : bindToCentroids true prims bpts =
      (prims.filter (fun p => decide (p.key ∈ bpts))).map (bindFn 0 bpts) := by
    unfold bindToCentroids
    rw [if_pos rfl, bindLoop_eq_map, List.filter_map]
    congr 1
    refine List.filter_congr ?_
    intro p hp
    simp only [Function.comp_apply]
    by_cases hin : p.key ∈ bpts
    · simp [hin, (bindFn_touched bpts 0 p).mpr (Or.inr hin)]
    · rw [bindFn_unmatched bpts 0 p hin]
      simp [hinit p hp, hin]
  refine ⟨hmain, ?_, ?_, ?_, ?_⟩
  · intro p hp
    rw [hmain] at hp
    obtain ⟨q, hq, rfl⟩ := List.mem_map.mp hp
    have hqin : q.key ∈ bpts := by
      have := List.of_mem_filter hq
      simpa using this
    rw [bindFn_key]
    exact hqin
  · rw [hmain, List.length_map]
    have hsplit := List.length_eq_length_filter_add
      (l := prims) (fun p => decide (p.key ∈ bpts))
    have hcongr : prims.filter (fun p => !(decide (p.key ∈ bpts))) =
        prims.filter (fun p => decide (p.key ∉ bpts)) := by
      refine List.filter_congr ?_
      intro p _
      by_cases hin : p.key ∈ bpts <;> simp [hin]
    rw [hcongr] at hsplit
    omega
  · unfold bindToCentroids
    rw [if_neg (by simp), bindLoop_eq_map, List.length_map]
  · intro i p hp hout
    unfold bindToCentroids
    rw [if_neg (by simp), bindLoop_eq_map]
    rw [List.get?_eq_getElem?, List.getElem?_map,
      ← List.get?_eq_getElem?, hp, Option.map_some',
      bindFn_unmatched bpts 0 p hout]

/-- C7 witness: two matched and one unmatched primitive; DESTROY removes
exactly the unmatched one, KEEP leaves it untouched. -/
theorem claim_C7_witness :
    (∀ p ∈ bindToCentroids true
        [⟨1, [], false⟩, ⟨2, [], false⟩, ⟨1, [], false⟩] [1],
      p.key ∈ [(1 : Int)]) ∧
    (bindToCentroids true
        [⟨1, [], false⟩, ⟨2, [], false⟩, ⟨1, [], false⟩] [1]).length =
      3 - ([⟨1, [], false⟩, ⟨2, [], false⟩,
        (⟨1, [], false⟩ : BindPrim)].filter
          (fun p => decide (p.key ∉ [(1 : Int)]))).length :=
  ⟨(claim_C7_bind_destroy_keep _ [1] (by decide)).2.1,
   (claim_C7_bind_destroy_keep _ [1] (by decide)).2.2.1⟩

/-- A quaternion value as a 4-tuple `(x, y, z, w)`. -/
abbrev Quat : Type := ℚ × ℚ × ℚ × ℚ

/-- The `UT_Quaternion` default constructor value: the identity rotation
`(0, 0, 0, 1)`. -/
def idQuat : Quat := (0, 0, 0, 1)

/-- The point-attribute lookups performed by
`SOP_PrimGroupCentroid::buildTransform`: each `Option` field is the result
of the corresponding `findFloatTuple` / `findNormalAttribute` /
`findVelocityAttribute` lookup (present only with the required tuple
size). -/
structure PtAttrs where
  pos : V3
  orient : Option Quat
  rot : Option Quat
  normal : Option V3
  vel : Option V3
  up : Option V3
  trans : Option V3
  scale : Option V3
  pscale : Option ℚ

/-- The inputs actually consumed by the host's
`UT_Matrix4::instance(...)` call: with an orientation the direction and up
vector are not consumed; without one they are. -/
inductive InstanceInputs
  | withOrient (pos : V3) (pscale : ℚ) (scale : V3) (rot : Quat) (trans : V3)
      (orient : Quat)
  | manual (pos : V3) (dir : V3) (pscale : ℚ) (scale : V3) (up : V3)
      (rot : Quat) (trans : V3)
deriving DecidableEq, Repr

/-- The attribute-selection logic of
`SOP_PrimGroupCentroid::buildTransform`: an `orient` 4-tuple, when present,
takes precedence (`use_orient`); `trans` defaults to zero, `scale` to unit,
`pscale` to 1, `rot` to the identity quaternion; without `orient` the
direction comes from the normal attribute, falling back to the velocity
attribute, falling back to `+Z`, and `up` defaults to the zero vector. -/
def buildTransformInputs (a : PtAttrs) : InstanceInputs :=
  match a.orient with
  | some o =>
      InstanceInputs.withOrient a.pos (a.pscale.getD 1) (a.scale.getD (1, 1, 1))
        (a.rot.getD idQuat) (a.trans.getD (0, 0, 0)) o
  | none =>
      InstanceInputs.manual a.pos
        (match a.normal with
         | some n => n
         | none =>
           match a.vel with
           | some v => v
           | none => (0, 0, 1))
        (a.pscale.getD 1) (a.scale.getD (1, 1, 1)) (a.up.getD (0, 0, 0))
        (a.rot.getD idQuat) (a.trans.getD (0, 0, 0))

/-- Row-vector-convention 4x4 matrices (`UT_Matrix4`). -/
abbrev Mat4 : Type := Matrix (Fin 4) (Fin 4) ℚ

/-- A pure translation matrix (translation components in the last row, as
in the host's row-vector convention). -/
def translateMat (v : V3) : Mat4 :=
  Matrix.of fun i j =>
    if i = j then 1
    else if i = 3 then
      (if j = 0 then v.1 else if j = 1 then v.2.1 else if j = 2 then v.2.2 else 0)
    else 0

/-- Componentwise negation of a `V3`. -/
def negV3 (v : V3) : V3 := (-v.1, -v.2.1, -v.2.2)

/-- The `pre_xform` of `buildTransform`: identity, translated to the
centroid, then inverted — i.e. the translation by the negated centroid. -/
def preTranslate (c : V3) : Mat4 := translateMat (negV3 c)

/-- `SOP_PrimGroupCentroid::buildTransform`, abstracted over the host's
`instance` composition: the final matrix is the inverted centroid
translation (left factor, so it applies first under the row-vector
convention) times the host instance transform of the selected inputs. -/
def buildTransform (instFn : InstanceInputs → Mat4) (a : PtAttrs) (c : V3) :
    Mat4 :=
  preTranslate c * instFn (buildTransformInputs a)

lemma preTranslate_mul_translate (c : V3) :
    preTranslate c * translateMat c = 1 := by
  unfold preTranslate
  ext i j
  rw [Matrix.mul_apply, Fin.sum_univ_four]
  fin_cases i <;> fin_cases j <;>
    simp [translateMat, negV3, Matrix.one_apply]

lemma translate_mul_preTranslate (c : V3) :
    translateMat c * preTranslate c = 1 := by
  unfold preTranslate
  ext i j
  rw [Matrix.mul_apply, Fin.sum_univ_four]
  fin_cases i <;> fin_cases j <;>
    simp [translateMat, negV3, Matrix.one_apply]

/-- C8: the transform builder uses a present `orient` 4-tuple with
precedence over manual axis construction; otherwise it builds from `rot`
(identity default), a direction from the normal attribute, else the
velocity attribute, else `+Z`, and an `up` vector defaulting to zero —
together with `trans` (zero default), `scale` (unit default) and `pscale`
(default 1); the whole is pre-multiplied by the inverse of the pure
translation to the supplied centroid. -/
theorem claim_C8_transform_builder (instFn : InstanceInputs → Mat4)
    (a : PtAttrs) (c : V3) :
    (buildTransform instFn a c =
      preTranslate c * instFn (buildTransformInputs a)) ∧
    (preTranslate c * translateMat c = 1) ∧
    (translateMat c * preTranslate c = 1) ∧
    (∀ o, a.orient = some o → buildTransformInputs a =
      InstanceInputs.withOrient a.pos (a.pscale.getD 1)
        (a.scale.getD (1, 1, 1)) (a.rot.getD idQuat) (a.trans.getD (0, 0, 0)) o) ∧
    (a.orient = none → ∀ dir,
      (a.normal = some dir ∨ (a.normal = none ∧ a.vel = some dir) ∨
        (a.normal = none ∧ a.vel = none ∧ dir = (0, 0, 1))) →
      buildTransformInputs a =
        InstanceInputs.manual a.pos dir (a.pscale.getD 1)
          (a.scale.getD (1, 1, 1)) (a.up.getD (0, 0, 0)) (a.rot.getD idQuat)
          (a.trans.getD (0, 0, 0))) := by
  refine ⟨rfl, preTranslate_mul_translate c, translate_mul_preTranslate c,
    ?_, ?_⟩
  · intro o ho
    unfold buildTransformInputs
    rw [ho]
  · intro hno dir hdir
    unfold buildTransformInputs
    rw [hno]
    rcases hdir with hn | ⟨hn, hv⟩ | ⟨hn, hv, rfl⟩
    · rw [hn]
    · rw [hn, hv]
    · rw [hn, hv]

/-- C8 witness: concrete attribute sets exercising the orient branch and
the velocity fallback of the manual branch. -/
theorem claim_C8_witness :
    buildTransformInputs
        ⟨(0, 0, 0), some (0, 0, 0, 1), none, none, none, none, none, none, none⟩ =
      InstanceInputs.withOrient (0, 0, 0) 1 (1, 1, 1) idQuat (0, 0, 0)
        (0, 0, 0, 1) ∧
    buildTransformInputs
        ⟨(0, 0, 0), none, none, none, some (2, 0, 0), none, none, none, none⟩ =
      InstanceInputs.manual (0, 0, 0) (2, 0, 0) 1 (1, 1, 1) (0, 0, 0) idQuat
        (0, 0, 0) :=
  ⟨(claim_C8_transform_builder (fun _ => 1)
      ⟨(0, 0, 0), some (0, 0, 0, 1), none, none, none, none, none, none, none⟩
      (0, 0, 0)).2.2.2.1 (0, 0, 0, 1) rfl,
   (claim_C8_transform_builder (fun _ => 1)
      ⟨(0, 0, 0), none, none, none, some (2, 0, 0), none, none, none, none⟩
      (0, 0, 0)).2.2.2.2 rfl (2, 0, 0) (Or.inr (Or.inl ⟨rfl, rfl⟩))⟩

end HoudiniToolbox
